import Mathlib

/-!
Verification development for the PriceMonWeb backend's crowd-sourced price
trust and moderation pipeline.  The definitions below are a shallow embedding
of the Python source: the Django models become Lean structures, the
serializer/view operations become functions on an explicit database state,
monetary amounts become exact rationals, and timestamps become integers
(seconds).  All fallible operations return `Except`.
-/

namespace PriceMon

/-- Moderation status shared by products and prices
(`products/models.py`, STATUS_CHOICES). -/
inductive Status
  | pending
  | approved
  | rejected
deriving DecidableEq, Repr

/-- The two supported currencies (`products/models.py`, CURRENCY_CHOICES). -/
inductive Currency
  | bgn
  | eur
deriving DecidableEq, Repr

/-- Vote direction on a price verification
(`products/models.py`, VOTE_TYPE_CHOICES). -/
inductive VoteType
  | positive
  | negative
deriving DecidableEq, Repr

/-- Report reason codes (`products/models.py`, REASON_CHOICES). -/
inductive ReportReason
  | too_high
  | too_low
  | wrong_product
  | wrong_store
  | outdated
  | duplicate_submission
  | other
deriving DecidableEq, Repr

/-- The fields of `users/models.py` `User` that the core mutates. -/
structure User where
  uid : Nat
  trust_score : Int
  is_admin : Bool
  total_prices_added : Int
  total_products_added : Int
deriving DecidableEq, Repr

/-- Model `ProductPrice` from `products/models.py`: one price submission. -/
structure ProductPrice where
  pid : Nat
  product : Nat
  store : Nat
  submitted_by : Option Nat
  price_eur : Rat
  price_entered : Rat
  currency_entered : Currency
  status : Status
  is_outlier : Bool
  positive_votes : Int
  negative_votes : Int
  created_at : Int
deriving DecidableEq, Repr

/-- Model `PriceVerification` from `products/models.py`: one community vote. -/
structure Verification where
  price : Nat
  user : Nat
  vote_type : VoteType
deriving DecidableEq, Repr

/-- Model `PriceReport` from `products/models.py`: one abuse report. -/
structure Report where
  price : Nat
  reported_by : Nat
  reason : ReportReason
deriving DecidableEq, Repr

/-- The relational store as seen by the core. -/
structure DB where
  users : List User
  prices : List ProductPrice
  verifications : List Verification
  reports : List Report
deriving DecidableEq, Repr

/-- Apply `f` to every stored price with id `i` (Django `save` on a fetched
row; ids are keys, so this is the row update). -/
def updatePrice (ps : List ProductPrice) (i : Nat) (f : ProductPrice → ProductPrice) :
    List ProductPrice :=
  ps.map (fun p => if p.pid = i then f p else p)

/-- Apply `f` to every stored user with id `i`. -/
def updateUser (us : List User) (i : Nat) (f : User → User) : List User :=
  us.map (fun u => if u.uid = i then f u else u)

/-- Lookup `ProductPrice.objects.get(pk=i)` as a partial function. -/
def findPrice (db : DB) (i : Nat) : Option ProductPrice :=
  db.prices.find? (fun p => p.pid = i)

/-- User lookup by id. -/
def findUser (db : DB) (i : Nat) : Option User :=
  db.users.find? (fun u => u.uid = i)

/-- Status of the stored price with id `i`, when present. -/
def priceStatus (db : DB) (i : Nat) : Option Status :=
  (findPrice db i).map (fun p => p.status)

/-- Number of PriceVerification rows referencing price `i`. -/
def verifCount (db : DB) (i : Nat) : Nat :=
  (db.verifications.filter (fun v => v.price = i)).length

/-- Number of PriceReport rows referencing price `i`
(`PriceReport.objects.filter(price=price).count()`). -/
def reportCount (db : DB) (i : Nat) : Nat :=
  (db.reports.filter (fun r => r.price = i)).length

/-- Failure modes of `PriceVerificationSerializer` / `verify_price`. -/
inductive VoteError
  | notFound
  | selfVoteForbidden
  | duplicateVote
deriving DecidableEq, Repr

/-- Embedding of `PriceVerificationViewSet.verify_price` plus `PriceVerificationSerializer`
(`products/serializers.py` lines 241-273): validate that the voter is not the
submitter and has not voted before, then create the verification, bump the
matching counter on the price, and award the voter +1 trust. -/
def castVote (db : DB) (priceId userId : Nat) (vt : VoteType) : Except VoteError DB :=
  match findPrice db priceId with
  | none => .error .notFound
  | some price =>
    if price.submitted_by = some userId then
      .error .selfVoteForbidden
    else if db.verifications.any (fun v => v.price = priceId && v.user = userId) then
      .error .duplicateVote
    else
      .ok { db with
        verifications := db.verifications ++ [⟨priceId, userId, vt⟩]
        prices := updatePrice db.prices priceId (fun p =>
          if vt = .positive then { p with positive_votes := p.positive_votes + 1 }
          else { p with negative_votes := p.negative_votes + 1 })
        users := updateUser db.users userId (fun u =>
          { u with trust_score := u.trust_score + 1 }) }

/-- Embedding of `ProductPriceViewSet.approve` (`products/views.py` lines 511-531):
`price.approve()` sets status to approved, then negative votes and the
outlier flag are cleared. -/
def adminApprove (db : DB) (priceId : Nat) : DB :=
  { db with
    prices := updatePrice db.prices priceId (fun p =>
      { p with status := .approved, negative_votes := 0, is_outlier := false }) }

/-- The -20 penalty with the explicit floor-at-0 check from
`products/views.py` lines 546-549. -/
def penalize20 (t : Int) : Int :=
  if t - 20 < 0 then 0 else t - 20

/-- Embedding of `ProductPriceViewSet.reject` (`products/views.py` lines 533-557): penalize
the submitter -20 trust (clamped at 0) when one is recorded, then
`price.reject()` sets status to rejected. -/
def adminReject (db : DB) (priceId : Nat) : DB :=
  match findPrice db priceId with
  | none => db
  | some price =>
    let users1 :=
      match price.submitted_by with
      | none => db.users
      | some s => updateUser db.users s (fun u =>
          { u with trust_score := penalize20 u.trust_score })
    { db with
      users := users1
      prices := updatePrice db.prices priceId (fun p => { p with status := .rejected }) }

/-- Failure modes of `PriceReportSerializer` / `report_price`. -/
inductive ReportError
  | notFound
  | selfReportForbidden
  | duplicateReport
deriving DecidableEq, Repr

/-- Embedding of `PriceReportViewSet.report_price` plus `PriceReportSerializer`
(`products/serializers.py` lines 286-313): validate, create the report, then
if the report count (including the new one) reaches 3 while the price is
approved, demote the price to pending. -/
def reportPrice (db : DB) (priceId reporterId : Nat) (reason : ReportReason) :
    Except ReportError DB :=
  match findPrice db priceId with
  | none => .error .notFound
  | some price =>
    if price.submitted_by = some reporterId then
      .error .selfReportForbidden
    else if db.reports.any (fun r => r.price = priceId && r.reported_by = reporterId) then
      .error .duplicateReport
    else
      let db1 := { db with reports := db.reports ++ [⟨priceId, reporterId, reason⟩] }
      if 3 ≤ reportCount db1 priceId ∧ price.status = .approved then
        .ok { db1 with
          prices := updatePrice db1.prices priceId (fun p => { p with status := .pending }) }
      else
        .ok db1

/-- Client payload of a price submission, per the `submitPrice` interface
(product, store, entered price, entered currency). -/
structure SubmitData where
  product : Nat
  store : Nat
  price_entered : Rat
  currency_entered : Currency
deriving DecidableEq, Repr

/-- Fixed conversion rate from `products/serializers.py` line 75:
1 EUR = 1.95583 BGN. -/
def BGN_TO_EUR_RATE : Rat := 195583 / 100000

/-- Currency normalization from `ProductPriceSerializer.create`
(`products/serializers.py` lines 77-80): BGN amounts are divided by the fixed
rate, EUR amounts pass through. -/
def toEur (amount : Rat) (c : Currency) : Rat :=
  match c with
  | .bgn => amount / BGN_TO_EUR_RATE
  | .eur => amount

/-- Fresh primary key for a newly inserted price row. -/
def freshId (db : DB) : Nat :=
  (db.prices.map (fun p => p.pid)).foldr max 0 + 1

/-- Rate-limit test from `ProductPriceViewSet.create`
(`products/views.py` lines 432-437): does the submitting user have any price
with `created_at >= now - 30 seconds`? -/
def recentSubmission (db : DB) (userId : Nat) (now : Int) : Bool :=
  db.prices.any (fun p =>
    decide (p.submitted_by = some userId ∧ now - 30 ≤ p.created_at))

/-- Peer set of the outlier check (`products/views.py` lines 450-454): prices
of the same product that are approved and not outliers, the new row excluded. -/
def peerPrices (db : DB) (productId newId : Nat) : List Rat :=
  (db.prices.filter (fun q =>
    decide (q.product = productId ∧ q.status = Status.approved ∧
      q.is_outlier = false ∧ q.pid ≠ newId))).map (fun q => q.price_eur)

/-- Outlier decision from `products/views.py` lines 456-473: with at least 2
peers and a positive peer mean, flag when the new price exceeds 2.5 times the
mean or falls below 0.4 times the mean. -/
def outlierFlag (peers : List Rat) (newPriceEur : Rat) : Bool :=
  if 2 ≤ peers.length then
    let avg := peers.sum / (peers.length : Rat)
    if 0 < avg then
      decide (avg * (5 / 2) < newPriceEur ∨ newPriceEur < avg * (2 / 5))
    else false
  else false

/-- Failure mode of price submission. -/
inductive SubmitError
  | rateLimited
deriving DecidableEq, Repr

/-- Row built by `ProductPriceSerializer.create` for a new submission: the
entered data, the normalized EUR price, the submitter, and the model defaults
`status='approved'`, `is_outlier=False`, zero vote counters
(`products/models.py` lines 252-271). -/
def newPriceRow (db : DB) (userId : Nat) (d : SubmitData) (now : Int) : ProductPrice :=
  { pid := freshId db, product := d.product, store := d.store,
    submitted_by := some userId,
    price_eur := toEur d.price_entered d.currency_entered,
    price_entered := d.price_entered, currency_entered := d.currency_entered,
    status := .approved, is_outlier := false,
    positive_votes := 0, negative_votes := 0, created_at := now }

/-- Embedding of `ProductPriceViewSet.create` plus `ProductPriceSerializer.create`
(`products/views.py` lines 424-486, `products/serializers.py` lines 65-90):
rate-limit check, currency normalization, row creation with the model default
`status='approved'` (the interface carries no status input), +3 trust and one
counter bump in the serializer, the outlier check on the saved row, and a
second counter bump in the view. -/
def submitPrice (db : DB) (userId : Nat) (d : SubmitData) (now : Int) :
    Except SubmitError (DB × ProductPrice) :=
  if recentSubmission db userId now then
    .error .rateLimited
  else
    let np := newPriceRow db userId d now
    let db1 : DB := { db with
      users := updateUser db.users userId (fun u =>
        { u with trust_score := u.trust_score + 3
                 total_prices_added := u.total_prices_added + 1 })
      prices := db.prices ++ [np] }
    let flag := outlierFlag (peerPrices db1 d.product np.pid) np.price_eur
    let db2 : DB :=
      if flag then
        { db1 with
          prices := updatePrice db1.prices np.pid (fun p => { p with is_outlier := true }) }
      else db1
    let db3 : DB := { db2 with users := updateUser db2.users userId (fun u =>
      { u with total_prices_added := u.total_prices_added + 1 }) }
    .ok (db3, { np with is_outlier := flag })

/-- Product creation effect on the Trust Ledger
(`ProductCreateSerializer.create`, `products/serializers.py` lines 199-214):
+5 trust and one product counter bump; the product row itself is outside the
price state. -/
def addProduct (db : DB) (userId : Nat) : DB :=
  { db with users := updateUser db.users userId (fun u =>
      { u with trust_score := u.trust_score + 5
               total_products_added := u.total_products_added + 1 }) }

/-- Integer-valued attribute read on a price row, modelling Python dynamic
attribute access: only the columns declared on the `ProductPrice` model
(`products/models.py` lines 194-304) resolve, any other name is an
`AttributeError`. -/
def ProductPrice.getIntAttr (p : ProductPrice) (name : String) : Option Int :=
  if name = "id" then some (p.pid : Int)
  else if name = "positive_votes" then some p.positive_votes
  else if name = "negative_votes" then some p.negative_votes
  else none

/-- Integer-valued attribute write on a price row; writes to names that are
not model columns fail the preceding read, so only real columns are writable. -/
def ProductPrice.setIntAttr (p : ProductPrice) (name : String) (v : Int) :
    Option ProductPrice :=
  if name = "positive_votes" then some { p with positive_votes := v }
  else if name = "negative_votes" then some { p with negative_votes := v }
  else none

/-- Failure modes of the legacy bare verify action. -/
inductive VerifyError
  | notFound
  | selfVerifyForbidden
  | attributeError
deriving DecidableEq, Repr

/-- Embedding of the legacy `ProductPriceViewSet.verify`
(`products/views.py` lines 488-509): reject self-verification, then execute
`price.verified_count += 1`, i.e. read the attribute `verified_count`,
add one and write it back.  The `ProductPrice` model declares no such
column, so the read raises `AttributeError`. -/
def legacyVerify (db : DB) (priceId userId : Nat) :
    Except VerifyError (DB × Int) :=
  match findPrice db priceId with
  | none => .error .notFound
  | some price =>
    if price.submitted_by = some userId then
      .error .selfVerifyForbidden
    else
      match price.getIntAttr "verified_count" with
      | none => .error .attributeError
      | some v =>
        match price.setIntAttr "verified_count" (v + 1) with
        | none => .error .attributeError
        | some p2 =>
          .ok ({ db with prices := updatePrice db.prices priceId (fun _ => p2) }, v + 1)

/-- One request against the core, for reasoning about reachable states. -/
inductive Op
  | submit (userId : Nat) (d : SubmitData) (now : Int)
  | vote (priceId userId : Nat) (vt : VoteType)
  | approve (priceId : Nat)
  | reject (priceId : Nat)
  | report (priceId reporterId : Nat) (reason : ReportReason)
  | newProduct (userId : Nat)
  | verifyLegacy (priceId userId : Nat)

/-- Execute one request; a failed request leaves the state unchanged (all
validation in the source happens before any write). -/
def step (db : DB) (op : Op) : DB :=
  match op with
  | .submit u d now =>
    match submitPrice db u d now with
    | .ok (db2, _) => db2
    | .error _ => db
  | .vote p u vt =>
    match castVote db p u vt with
    | .ok db2 => db2
    | .error _ => db
  | .approve p => adminApprove db p
  | .reject p => adminReject db p
  | .report p r reason =>
    match reportPrice db p r reason with
    | .ok db2 => db2
    | .error _ => db
  | .newProduct u => addProduct db u
  | .verifyLegacy p u =>
    match legacyVerify db p u with
    | .ok (db2, _) => db2
    | .error _ => db

/-- Execute a sequence of requests. -/
def run (db : DB) (ops : List Op) : DB :=
  ops.foldl step db

/-- Round a rational to the nearest integer, ties to even (Python `round`). -/
def roundHalfEven (q : Rat) : Int :=
  let f := ⌊q⌋
  if q - f < 1 / 2 then f
  else if (1 : Rat) / 2 < q - f then f + 1
  else if f % 2 = 0 then f else f + 1

/-- Python `round(x, 2)`. -/
def round2 (q : Rat) : Rat := (roundHalfEven (q * 100) : Rat) / 100

/-- Python `round(x, 1)`. -/
def round1 (q : Rat) : Rat := (roundHalfEven (q * 10) : Rat) / 10

/-- Shopping list item (`shopping/models.py` `ShoppingListItem`): either a
catalogue product or a custom entry, with a positive-integer quantity. -/
structure SLItem where
  product : Option Nat
  quantity : Nat
deriving DecidableEq, Repr

/-- Filter `items.filter(product__isnull=False)` from
`ShoppingListViewSet.compare_stores`, keeping product id and quantity. -/
def qualifyingItems (items : List SLItem) : List (Nat × Nat) :=
  items.filterMap (fun it => it.product.map (fun pr => (pr, it.quantity)))

/-- Latest-price query of `compare_stores` (`shopping/views.py` lines
271-275): approved prices for the product at the store, ordered by
`created_at` descending, first row.  The first listed row wins a tie. -/
def latestApproved (db : DB) (productId storeId : Nat) : Option ProductPrice :=
  (db.prices.filter (fun p =>
    decide (p.product = productId ∧ p.store = storeId ∧ p.status = Status.approved))).foldl
    (fun acc p =>
      match acc with
      | none => some p
      | some q => if q.created_at < p.created_at then some p else some q)
    none

/-- Running totals of the per-store loop in `compare_stores`. -/
structure StoreTally where
  total : Rat
  items_with_prices : Nat
  items_without_prices : List Nat
deriving DecidableEq, Repr

/-- One iteration of the per-item loop of `compare_stores`
(`shopping/views.py` lines 269-281): add `price_eur × quantity` when a latest
approved price exists, else record the product as unpriced. -/
def tallyStep (db : DB) (storeId : Nat) (t : StoreTally) (it : Nat × Nat) : StoreTally :=
  match latestApproved db it.1 storeId with
  | some pr =>
    { t with total := t.total + pr.price_eur * (it.2 : Rat)
             items_with_prices := t.items_with_prices + 1 }
  | none =>
    { t with items_without_prices := t.items_without_prices ++ [it.1] }

/-- Per-store loop of `compare_stores`. -/
def tallyStore (db : DB) (items : List (Nat × Nat)) (storeId : Nat) : StoreTally :=
  items.foldl (tallyStep db storeId) ⟨0, 0, []⟩

/-- EUR contribution of one line item at one store: quantity times the most
recent approved price, 0 when no price is recorded there. -/
def priceContribution (db : DB) (storeId : Nat) (it : Nat × Nat) : Rat :=
  match latestApproved db it.1 storeId with
  | some pr => pr.price_eur * (it.2 : Rat)
  | none => 0

/-- One entry of the `compare_stores` response (`shopping/views.py` lines
283-291); `items_without_prices` carries product ids in place of names. -/
structure StoreResult where
  store_id : Nat
  total_price_eur : Rat
  items_with_prices : Nat
  items_without_prices : List Nat
  coverage_percent : Rat
deriving DecidableEq, Repr

/-- Response entry for one store, with the roundings of
`shopping/views.py` lines 286-290. -/
def storeResult (db : DB) (items : List (Nat × Nat)) (storeId : Nat) : StoreResult :=
  let t := tallyStore db items storeId
  { store_id := storeId
    total_price_eur := round2 t.total
    items_with_prices := t.items_with_prices
    items_without_prices := t.items_without_prices
    coverage_percent := round1
      (if 0 < items.length then
        (t.items_with_prices : Rat) / (items.length : Rat) * 100
      else 0) }

/-- Failure mode of `compare_stores` with fewer than 2 store ids. -/
inductive CompareError
  | insufficientStores
deriving DecidableEq, Repr

/-- Ascending comparison on the rounded store totals, the sort key of
`comparison.sort(key=lambda x: x\x7b'total_price_eur'\x7d)`. -/
def byTotal (a b : StoreResult) : Prop :=
  a.total_price_eur ≤ b.total_price_eur

instance : DecidableRel byTotal := fun a b =>
  inferInstanceAs (Decidable (a.total_price_eur ≤ b.total_price_eur))

instance : IsTotal StoreResult byTotal :=
  ⟨fun a b => le_total a.total_price_eur b.total_price_eur⟩

instance : IsTrans StoreResult byTotal := ⟨fun _ _ _ => le_trans⟩

/-- Embedding of `ShoppingListViewSet.compare_stores`
(`shopping/views.py` lines 246-299): require at least two store ids, build
one `StoreResult` per requested store over the product-bearing items, and
return them sorted ascending by total cost (a stable sort, as in Python). -/
def compareStores (db : DB) (items : List SLItem) (storeIds : List Nat) :
    Except CompareError (List StoreResult) :=
  if storeIds.length < 2 then
    .error .insufficientStores
  else
    .ok (List.insertionSort byTotal
      (storeIds.map (fun s => storeResult db (qualifyingItems items) s)))

/-- Embedding of `ProductSerializer.get_best_price`
(`products/serializers.py` lines 123-138): among approved, non-outlier prices
of the product from the last 30 days, the one with the lowest `price_eur`. -/
def bestPrice (db : DB) (productId : Nat) (now : Int) : Option ProductPrice :=
  (db.prices.filter (fun p =>
    decide (p.product = productId ∧ p.status = Status.approved ∧
      p.is_outlier = false ∧ now - 2592000 ≤ p.created_at))).foldl
    (fun acc p =>
      match acc with
      | none => some p
      | some q => if p.price_eur < q.price_eur then some p else some q)
    none

/-- Peer prices of a product as they stand before a new submission: the
approved, non-outlier prices already recorded for it.  Used in theorem
statements about the outlier detector. -/
def peersOf (db : DB) (productId : Nat) : List Rat :=
  (db.prices.filter (fun q =>
    decide (q.product = productId ∧ q.status = Status.approved ∧
      q.is_outlier = false))).map (fun q => q.price_eur)

/-- Invariant of §3 of the spec: each price's vote counters sum to the number
of PriceVerification rows referencing it. -/
def voteBalance (db : DB) : Prop :=
  ∀ p ∈ db.prices, p.positive_votes + p.negative_votes = (verifCount db p.pid : Int)

instance (db : DB) : Decidable (voteBalance db) := by
  unfold voteBalance
  infer_instance

/-- The Trust Ledger floor: every stored user has a nonnegative trust score. -/
def trustNonneg (db : DB) : Prop :=
  ∀ u ∈ db.users, 0 ≤ u.trust_score

instance (db : DB) : Decidable (trustNonneg db) := by
  unfold trustNonneg
  infer_instance

/-- Run a sequence of report requests against one price, one reporter after
another; a rejected report leaves the state unchanged. -/
def runReports (db : DB) (priceId : Nat) (reporters : List Nat) (reason : ReportReason) : DB :=
  reporters.foldl
    (fun d r =>
      match reportPrice d priceId r reason with
      | .ok d2 => d2
      | .error _ => d) db

/-- A fresh user with no history, for concrete scenarios. -/
def sampleUser : User := ⟨5, 0, false, 0, 0⟩

/-- A store with one registered user and no prices. -/
def sampleDB : DB := ⟨[sampleUser], [], [], []⟩

/-- A plain 4 EUR submission for product 1 at store 2. -/
def sampleData : SubmitData := ⟨1, 2, 4, Currency.eur⟩

/-- The row `submitPrice sampleDB 5 sampleData 100` creates. -/
def samplePR : ProductPrice :=
  ⟨1, 1, 2, some 5, 4, 4, Currency.eur, Status.approved, false, 0, 0, 100⟩

/-- The store after `submitPrice sampleDB 5 sampleData 100`. -/
def sampleDB1 : DB := ⟨[⟨5, 3, false, 2, 0⟩], [samplePR], [], []⟩

/-- An approved non-outlier 10 EUR peer price for product 1 at store 2. -/
def peerTen1 : ProductPrice :=
  ⟨1, 1, 2, none, 10, 10, Currency.eur, Status.approved, false, 0, 0, 0⟩

/-- A second approved non-outlier 10 EUR peer price. -/
def peerTen2 : ProductPrice :=
  ⟨2, 1, 2, none, 10, 10, Currency.eur, Status.approved, false, 0, 0, 0⟩

/-- A store holding the two 10 EUR peers of the spec's outlier example. -/
def peersTenDB : DB := ⟨[⟨5, 0, false, 0, 0⟩], [peerTen1, peerTen2], [], []⟩

/-- The flagged row created by submitting 26 EUR against peers at 10 EUR. -/
def outlierPR : ProductPrice :=
  ⟨3, 1, 2, some 5, 26, 26, Currency.eur, Status.approved, true, 0, 0, 100⟩

/-- The store after the 26 EUR submission against the two 10 EUR peers. -/
def outlierDB1 : DB :=
  ⟨[⟨5, 3, false, 2, 0⟩], [peerTen1, peerTen2, outlierPR], [], []⟩

/-- An approved non-outlier peer price of 0 EUR. -/
def zeroPeerA : ProductPrice :=
  ⟨1, 1, 2, none, 0, 0, Currency.eur, Status.approved, false, 0, 0, 0⟩

/-- A second approved non-outlier peer price of 0 EUR. -/
def zeroPeerB : ProductPrice :=
  ⟨2, 1, 2, none, 0, 0, Currency.eur, Status.approved, false, 0, 0, 0⟩

/-- A store holding two 0 EUR peers: the peer mean is 0, which the source
guards out of the outlier check. -/
def zeroPeersDB : DB := ⟨[⟨5, 0, false, 0, 0⟩], [zeroPeerA, zeroPeerB], [], []⟩

/-- The submitter of the sample voted-on price. -/
def voteSubmitter : User := ⟨1, 0, false, 0, 0⟩

/-- A second user who votes on the sample price. -/
def voteVoter : User := ⟨7, 0, false, 0, 0⟩

/-- An approved price submitted by user 1, not yet voted on. -/
def votePrice : ProductPrice :=
  ⟨1, 1, 2, some 1, 10, 10, Currency.eur, Status.approved, false, 0, 0, 0⟩

/-- A store with one price and two users, for voting scenarios. -/
def voteDB : DB := ⟨[voteSubmitter, voteVoter], [votePrice], [], []⟩

/-- An approved price carrying one negative vote. -/
def balPrice : ProductPrice :=
  ⟨1, 1, 2, some 1, 10, 10, Currency.eur, Status.approved, false, 0, 1, 0⟩

/-- A store where user 2 has cast one negative vote on user 1's price: the
vote counters and the verification rows agree. -/
def balDB : DB :=
  ⟨[⟨1, 0, false, 0, 0⟩, ⟨2, 0, false, 0, 0⟩], [balPrice],
   [⟨1, 2, VoteType.negative⟩], []⟩

/-- A store with one approved price by user 1 and four other users who will
report it. -/
def reportDB : DB :=
  ⟨[⟨1, 0, false, 0, 0⟩, ⟨2, 0, false, 0, 0⟩, ⟨3, 0, false, 0, 0⟩,
    ⟨4, 0, false, 0, 0⟩, ⟨5, 0, false, 0, 0⟩],
   [⟨1, 1, 2, some 1, 10, 10, Currency.eur, Status.approved, false, 0, 0, 0⟩], [], []⟩

/-- An approved 3 EUR price for product 1 at store 1, for the comparator
example of §8 of the spec. -/
def shopPrice : ProductPrice :=
  ⟨1, 1, 1, none, 3, 3, Currency.eur, Status.approved, false, 0, 0, 0⟩

/-- A store catalogue with only the 3 EUR price. -/
def shopDB : DB := ⟨[], [shopPrice], [], []⟩

/-- Two product-bearing items: product 1 twice, product 2 once. -/
def shopItems : List SLItem := [⟨some 1, 2⟩, ⟨some 2, 1⟩]

/-- An older approved non-outlier 10 EUR price for product 1 at store 1. -/
def normalOlder : ProductPrice :=
  ⟨1, 1, 1, none, 10, 10, Currency.eur, Status.approved, false, 0, 0, 0⟩

/-- A newer approved price of 100 EUR flagged as an outlier. -/
def outlierLatest : ProductPrice :=
  ⟨2, 1, 1, none, 100, 100, Currency.eur, Status.approved, true, 0, 0, 5⟩

/-- A catalogue where the most recent approved price at the store is the
flagged outlier. -/
def outlierShopDB : DB := ⟨[], [normalOlder, outlierLatest], [], []⟩

lemma le_foldr_max (l : List Nat) (x : Nat) (hx : x ∈ l) : x ≤ l.foldr max 0 := by
  induction l with
  | nil => cases hx
  | cons a t ih =>
    rcases List.mem_cons.mp hx with h | h
    · subst h
      exact le_max_left _ _
    · exact le_trans (ih h) (le_max_right _ _)

lemma pid_ne_freshId (db : DB) (p : ProductPrice) (hp : p ∈ db.prices) :
    p.pid ≠ freshId db := by
  have h := le_foldr_max (db.prices.map (fun q => q.pid)) p.pid
    (List.mem_map_of_mem _ hp)
  unfold freshId
  omega

lemma updatePrice_append_fresh (ps : List ProductPrice) (np : ProductPrice)
    (f : ProductPrice → ProductPrice) (h : ∀ q ∈ ps, q.pid ≠ np.pid) :
    updatePrice (ps ++ [np]) np.pid f = ps ++ [f np] := by
  unfold updatePrice
  rw [List.map_append]
  congr 1
  · have : ∀ q ∈ ps, (if q.pid = np.pid then f q else q) = id q := by
      intro q hq
      simp [h q hq]
    rw [List.map_congr_left this, List.map_id]
  · simp

lemma mem_updatePrice_of_mem (ps : List ProductPrice) (i : Nat)
    (f : ProductPrice → ProductPrice) (q : ProductPrice) (hq : q ∈ ps) (hqi : q.pid = i) :
    f q ∈ updatePrice ps i f := by
  have hm : (if q.pid = i then f q else q) ∈ updatePrice ps i f :=
    List.mem_map_of_mem _ hq
  rwa [if_pos hqi] at hm

lemma mem_updatePrice_of_mem_ne (ps : List ProductPrice) (i : Nat)
    (f : ProductPrice → ProductPrice) (q : ProductPrice) (hq : q ∈ ps) (hqi : q.pid ≠ i) :
    q ∈ updatePrice ps i f := by
  have hm : (if q.pid = i then f q else q) ∈ updatePrice ps i f :=
    List.mem_map_of_mem _ hq
  rwa [if_neg hqi] at hm

lemma mem_updateUser_of_mem (us : List User) (i : Nat)
    (f : User → User) (u : User) (hu : u ∈ us) (hui : u.uid = i) :
    f u ∈ updateUser us i f := by
  have hm : (if u.uid = i then f u else u) ∈ updateUser us i f :=
    List.mem_map_of_mem _ hu
  rwa [if_pos hui] at hm

lemma mem_updateUser_of_mem_ne (us : List User) (i : Nat)
    (f : User → User) (u : User) (hu : u ∈ us) (hui : u.uid ≠ i) :
    u ∈ updateUser us i f := by
  have hm : (if u.uid = i then f u else u) ∈ updateUser us i f :=
    List.mem_map_of_mem _ hu
  rwa [if_neg hui] at hm

lemma peerPrices_eq (db2 db : DB) (np : ProductPrice)
    (hp : db2.prices = db.prices ++ [np])
    (hfresh : ∀ q ∈ db.prices, q.pid ≠ np.pid) (productId : Nat) :
    peerPrices db2 productId np.pid = peersOf db productId := by
  unfold peerPrices peersOf
  rw [hp, List.filter_append]
  have h1 : List.filter (fun q => decide (q.product = productId ∧
      q.status = Status.approved ∧ q.is_outlier = false ∧ q.pid ≠ np.pid)) [np] = [] := by
    simp
  have h2 : List.filter (fun q => decide (q.product = productId ∧
        q.status = Status.approved ∧ q.is_outlier = false ∧ q.pid ≠ np.pid)) db.prices =
      List.filter (fun q => decide (q.product = productId ∧
        q.status = Status.approved ∧ q.is_outlier = false)) db.prices := by
    apply List.filter_congr
    intro q hq
    have := hfresh q hq
    simp only [decide_eq_decide]
    tauto
  rw [h1, h2, List.append_nil]

lemma recentSubmission_iff (db : DB) (uid : Nat) (now : Int) :
    recentSubmission db uid now = true ↔
      ∃ p ∈ db.prices, p.submitted_by = some uid ∧ now - 30 ≤ p.created_at := by
  unfold recentSubmission
  simp [List.any_eq_true]

lemma submitPrice_error_iff (db : DB) (uid : Nat) (d : SubmitData) (now : Int) :
    submitPrice db uid d now = .error .rateLimited ↔
      recentSubmission db uid now = true := by
  unfold submitPrice
  by_cases h : recentSubmission db uid now <;> simp [h]

lemma submitPrice_ok_row (db : DB) (uid : Nat) (d : SubmitData) (now : Int)
    (db1 : DB) (pr : ProductPrice)
    (h : submitPrice db uid d now = .ok (db1, pr)) :
    pr = { newPriceRow db uid d now with
           is_outlier := outlierFlag (peersOf db d.product)
             (toEur d.price_entered d.currency_entered) } := by
  unfold submitPrice at h
  by_cases hrl : recentSubmission db uid now
  · rw [if_pos hrl] at h
    cases h
  · rw [if_neg hrl] at h
    simp only [Except.ok.injEq, Prod.mk.injEq] at h
    have hpeers : peerPrices { db with
        users := updateUser db.users uid (fun u =>
          { u with trust_score := u.trust_score + 3
                   total_prices_added := u.total_prices_added + 1 })
        prices := db.prices ++ [newPriceRow db uid d now] } d.product
        (newPriceRow db uid d now).pid = peersOf db d.product := by
      apply peerPrices_eq _ db
      · rfl
      · intro q hq
        exact pid_ne_freshId db q hq
    rw [← h.2, hpeers]
    rfl

lemma submitPrice_ok_prices (db : DB) (uid : Nat) (d : SubmitData) (now : Int)
    (db1 : DB) (pr : ProductPrice)
    (h : submitPrice db uid d now = .ok (db1, pr)) :
    db1.prices = db.prices ++ [pr] := by
  unfold submitPrice at h
  by_cases hrl : recentSubmission db uid now
  · rw [if_pos hrl] at h
    cases h
  · rw [if_neg hrl] at h
    simp only [Except.ok.injEq, Prod.mk.injEq] at h
    obtain ⟨h1, h2⟩ := h
    rw [← h1, ← h2]
    show (if _ then _ else _ : DB).prices = _
    split
    next hc =>
      rw [hc]
      show updatePrice (db.prices ++ [newPriceRow db uid d now])
        (newPriceRow db uid d now).pid _ = _
      rw [updatePrice_append_fresh db.prices (newPriceRow db uid d now)
        (fun p => { p with is_outlier := true })
        (fun q hq => pid_ne_freshId db q hq)]
    next hc =>
      rw [Bool.not_eq_true] at hc
      rw [hc]
      show db.prices ++ [newPriceRow db uid d now] = _
      simp [newPriceRow]

lemma submitPrice_ok_users (db : DB) (uid : Nat) (d : SubmitData) (now : Int)
    (db1 : DB) (pr : ProductPrice)
    (h : submitPrice db uid d now = .ok (db1, pr)) :
    db1.users = updateUser (updateUser db.users uid
      (fun u => { u with trust_score := u.trust_score + 3
                         total_prices_added := u.total_prices_added + 1 })) uid
      (fun u => { u with total_prices_added := u.total_prices_added + 1 }) := by
  unfold submitPrice at h
  by_cases hrl : recentSubmission db uid now
  · rw [if_pos hrl] at h
    cases h
  · rw [if_neg hrl] at h
    simp only [Except.ok.injEq, Prod.mk.injEq] at h
    rw [← h.1]
    split <;> rfl

lemma submitPrice_created_at (db : DB) (uid : Nat) (d : SubmitData) (now : Int)
    (db1 : DB) (pr : ProductPrice)
    (h : submitPrice db uid d now = .ok (db1, pr)) :
    pr.submitted_by = some uid ∧ pr.created_at = now := by
  rw [submitPrice_ok_row db uid d now db1 pr h]
  exact ⟨rfl, rfl⟩

/-- C6: a price submission fails with RateLimited exactly when the same user
already has a price created within the last 30 seconds; in particular, after
a successful submission at time `now`, a second attempt at `t2` with
`t2 - now ≤ 30` fails, and one with `t2 - now > 30` succeeds provided every
earlier price of the user is also more than 30 seconds old. -/
theorem rate_limit_spec :
    (∀ (db : DB) (uid : Nat) (d : SubmitData) (now : Int),
      submitPrice db uid d now = .error .rateLimited ↔
        ∃ p ∈ db.prices, p.submitted_by = some uid ∧ now - 30 ≤ p.created_at) ∧
    (∀ (db : DB) (uid : Nat) (d : SubmitData) (now : Int) (db1 : DB) (pr : ProductPrice),
      submitPrice db uid d now = .ok (db1, pr) →
      ∀ (d2 : SubmitData) (t2 : Int),
        (t2 - now ≤ 30 → submitPrice db1 uid d2 t2 = .error .rateLimited) ∧
        (30 < t2 - now →
          (∀ p ∈ db.prices, p.submitted_by = some uid → p.created_at < t2 - 30) →
          ∃ db2 pr2, submitPrice db1 uid d2 t2 = .ok (db2, pr2))) := by
  constructor
  · intro db uid d now
    rw [submitPrice_error_iff, recentSubmission_iff]
  · intro db uid d now db1 pr h d2 t2
    have hps := submitPrice_ok_prices db uid d now db1 pr h
    have hpr := submitPrice_created_at db uid d now db1 pr h
    constructor
    · intro h30
      rw [submitPrice_error_iff, recentSubmission_iff]
      refine ⟨pr, ?_, hpr.1, ?_⟩
      · rw [hps]
        exact List.mem_append_right _ (List.mem_singleton.mpr rfl)
      · rw [hpr.2]
        omega
    · intro h30 hold
      have hnotrl : recentSubmission db1 uid t2 = false := by
        rw [Bool.eq_false_iff]
        intro hcontra
        rw [recentSubmission_iff] at hcontra
        obtain ⟨p, hp, hsub, hle⟩ := hcontra
        rw [hps] at hp
        rcases List.mem_append.mp hp with hp | hp
        · have := hold p hp hsub
          omega
        · have hple : p.created_at = now := by
            rw [List.mem_singleton.mp hp, hpr.2]
          omega
      cases hres : submitPrice db1 uid d2 t2 with
      | ok res =>
        obtain ⟨a, b⟩ := res
        exact ⟨a, b, rfl⟩
      | error e =>
        exfalso
        cases e
        rw [submitPrice_error_iff] at hres
        rw [hres] at hnotrl
        cases hnotrl

/-- Witness for C6: a second submission 20 seconds after the first fails
rate-limited, and one 31 seconds after succeeds. -/
theorem rate_limit_spec_witness :
    submitPrice sampleDB1 5 sampleData 120 = .error .rateLimited ∧
    ∃ db2 pr2, submitPrice sampleDB1 5 sampleData 131 = .ok (db2, pr2) := by
  have hok : submitPrice sampleDB 5 sampleData 100 = .ok (sampleDB1, samplePR) := by
    norm_num [submitPrice, sampleDB, sampleData, sampleDB1, samplePR, recentSubmission,
      newPriceRow, freshId, sampleUser, peerPrices, outlierFlag, updateUser, toEur]
  have h := rate_limit_spec.2 sampleDB 5 sampleData 100 sampleDB1 samplePR hok
  constructor
  · exact (h sampleData 120).1 (by omega)
  · exact (h sampleData 131).2 (by omega) (by simp [sampleDB])

/-- C7: every successful price submission creates the price with status
approved, for every submitter (the status is the model default and is not
gated on trust score, trust level, or the admin flag); every row stored for
that price id is approved as well. -/
theorem submit_initial_status_approved (db : DB) (uid : Nat) (d : SubmitData)
    (now : Int) (db1 : DB) (pr : ProductPrice)
    (h : submitPrice db uid d now = .ok (db1, pr)) :
    pr.status = Status.approved ∧
    pr.submitted_by = some uid ∧
    ∀ q ∈ db1.prices, q.pid = pr.pid → q.status = Status.approved := by
  have hrow := submitPrice_ok_row db uid d now db1 pr h
  have hps := submitPrice_ok_prices db uid d now db1 pr h
  refine ⟨by rw [hrow]; rfl, by rw [hrow]; rfl, ?_⟩
  intro q hq hqpid
  rw [hps] at hq
  rcases List.mem_append.mp hq with hq | hq
  · exfalso
    apply pid_ne_freshId db q hq
    rw [hqpid, hrow]
    rfl
  · rw [List.mem_singleton.mp hq, hrow]
    rfl

/-- Witness for C7: the sample submission by a zero-trust non-admin user
yields an approved price. -/
theorem submit_initial_status_approved_witness :
    samplePR.status = Status.approved ∧ sampleUser.trust_score = 0 ∧
      sampleUser.is_admin = false := by
  have hok : submitPrice sampleDB 5 sampleData 100 = .ok (sampleDB1, samplePR) := by
    norm_num [submitPrice, sampleDB, sampleData, sampleDB1, samplePR, recentSubmission,
      newPriceRow, freshId, sampleUser, peerPrices, outlierFlag, updateUser, toEur]
  exact ⟨(submit_initial_status_approved sampleDB 5 sampleData 100 sampleDB1
    samplePR hok).1, rfl, rfl⟩

/-- C2 (amended): a new submission is flagged as an outlier exactly when the
product has at least 2 other approved non-outlier prices, the arithmetic mean
of those peers is positive, and the new EUR price exceeds 2.5 times the mean
or falls below 0.4 times the mean; with fewer than 2 peers no flag is
applied; flagging never changes the status, which stays approved. -/
theorem outlier_detection_spec (db : DB) (uid : Nat) (d : SubmitData) (now : Int)
    (db1 : DB) (pr : ProductPrice)
    (h : submitPrice db uid d now = .ok (db1, pr)) :
    (2 ≤ (peersOf db d.product).length →
      0 < (peersOf db d.product).sum / ((peersOf db d.product).length : Rat) →
      (pr.is_outlier = true ↔
        (peersOf db d.product).sum / ((peersOf db d.product).length : Rat) * (5 / 2)
            < pr.price_eur ∨
          pr.price_eur <
            (peersOf db d.product).sum / ((peersOf db d.product).length : Rat) * (2 / 5))) ∧
    ((peersOf db d.product).length < 2 → pr.is_outlier = false) ∧
    pr.status = Status.approved := by
  have hrow := submitPrice_ok_row db uid d now db1 pr h
  have hfl : pr.is_outlier =
      outlierFlag (peersOf db d.product) (toEur d.price_entered d.currency_entered) := by
    rw [hrow]
  have hpe : pr.price_eur = toEur d.price_entered d.currency_entered := by
    rw [hrow]
    rfl
  refine ⟨?_, ?_, by rw [hrow]; rfl⟩
  · intro hlen hm
    rw [hfl, hpe]
    unfold outlierFlag
    rw [if_pos hlen, if_pos hm]
    simp
  · intro hlen
    rw [hfl]
    unfold outlierFlag
    rw [if_neg (by omega)]

/-- Witness for C2: against peers at EUR 10 and 10, a 26 EUR submission is
flagged; direct evaluation confirms the spec's examples 26 (flagged),
24 (not), 3.9 (flagged), 4.1 (not). -/
theorem outlier_detection_spec_witness :
    outlierPR.is_outlier = true ∧
    outlierFlag [10, 10] 26 = true ∧ outlierFlag [10, 10] 24 = false ∧
    outlierFlag [10, 10] (39 / 10) = true ∧ outlierFlag [10, 10] (41 / 10) = false := by
  have hok : submitPrice peersTenDB 5 ⟨1, 2, 26, Currency.eur⟩ 100 =
      .ok (outlierDB1, outlierPR) := by
    norm_num [submitPrice, peersTenDB, recentSubmission, newPriceRow, freshId, peerPrices,
      outlierFlag, updateUser, updatePrice, toEur, peerTen1, peerTen2, outlierDB1, outlierPR]
  have hpeers : peersOf peersTenDB 1 = [10, 10] := by
    norm_num [peersOf, peersTenDB, peerTen1, peerTen2]
  refine ⟨((outlier_detection_spec peersTenDB 5 ⟨1, 2, 26, Currency.eur⟩ 100 outlierDB1
      outlierPR hok).1 (by rw [hpeers]; norm_num) (by rw [hpeers]; norm_num)).mpr
      (Or.inl (by rw [hpeers]; norm_num [outlierPR])),
    ?_, ?_, ?_, ?_⟩ <;> norm_num [outlierFlag]

/-- Counterexample for C2 as stated: with two approved non-outlier peers at
0 EUR, a 5 EUR submission satisfies the claim's flagging condition
(5 > 2.5 × mean, the mean being 0) yet the source applies no flag, because it
additionally requires the peer mean to be positive. -/
theorem outlier_detection_counterexample :
    (∃ db1, submitPrice zeroPeersDB 5 ⟨1, 2, 5, Currency.eur⟩ 100 =
      .ok (db1, ⟨3, 1, 2, some 5, 5, 5, Currency.eur, Status.approved, false, 0, 0, 100⟩)) ∧
    2 ≤ (peersOf zeroPeersDB 1).length ∧
    (peersOf zeroPeersDB 1).sum / ((peersOf zeroPeersDB 1).length : Rat) * (5 / 2)
      < (5 : Rat) := by
  have hpeers : peersOf zeroPeersDB 1 = [0, 0] := by
    norm_num [peersOf, zeroPeersDB, zeroPeerA, zeroPeerB]
  refine ⟨⟨⟨[⟨5, 3, false, 2, 0⟩], [zeroPeerA, zeroPeerB,
      ⟨3, 1, 2, some 5, 5, 5, Currency.eur, Status.approved, false, 0, 0, 100⟩], [], []⟩, ?_⟩,
    by rw [hpeers]; norm_num, by rw [hpeers]; norm_num⟩
  norm_num [submitPrice, zeroPeersDB, recentSubmission, newPriceRow, freshId, peerPrices,
    outlierFlag, updateUser, toEur, zeroPeerA, zeroPeerB]

/-- C4: casting a vote fails with SelfVoteForbidden when the voter is the
price's submitter (for either vote type), fails with DuplicateVote when the
voter already has a verification on the price, and otherwise records the
verification, increments exactly the counter matching the vote type, and
awards the voter +1 trust. -/
theorem cast_vote_spec (db : DB) (priceId userId : Nat) (vt : VoteType)
    (price : ProductPrice) (hfind : findPrice db priceId = some price) :
    (price.submitted_by = some userId →
      castVote db priceId userId vt = .error .selfVoteForbidden) ∧
    (price.submitted_by ≠ some userId →
      (∃ v ∈ db.verifications, v.price = priceId ∧ v.user = userId) →
      castVote db priceId userId vt = .error .duplicateVote) ∧
    (price.submitted_by ≠ some userId →
      (∀ v ∈ db.verifications, ¬(v.price = priceId ∧ v.user = userId)) →
      ∃ db2, castVote db priceId userId vt = .ok db2 ∧
        db2.verifications = db.verifications ++ [⟨priceId, userId, vt⟩] ∧
        (∀ q ∈ db.prices, q.pid = priceId →
          (if vt = VoteType.positive then
            { q with positive_votes := q.positive_votes + 1 }
           else { q with negative_votes := q.negative_votes + 1 }) ∈ db2.prices) ∧
        (∀ q ∈ db.prices, q.pid ≠ priceId → q ∈ db2.prices) ∧
        (∀ u ∈ db.users, u.uid = userId →
          { u with trust_score := u.trust_score + 1 } ∈ db2.users) ∧
        (∀ u ∈ db.users, u.uid ≠ userId → u ∈ db2.users)) := by
  simp only [castVote, hfind]
  refine ⟨?_, ?_, ?_⟩
  · intro hsub
    rw [if_pos hsub]
  · intro hsub hdup
    have hany : db.verifications.any (fun v => v.price = priceId && v.user = userId) = true := by
      rw [List.any_eq_true]
      obtain ⟨v, hv, h1, h2⟩ := hdup
      exact ⟨v, hv, by simp [h1, h2]⟩
    rw [if_neg hsub, if_pos hany]
  · intro hsub hnodup
    have hany : db.verifications.any (fun v => v.price = priceId && v.user = userId) = false := by
      rw [Bool.eq_false_iff]
      intro hc
      rw [List.any_eq_true] at hc
      obtain ⟨v, hv, hvv⟩ := hc
      simp only [Bool.and_eq_true, decide_eq_true_eq] at hvv
      exact hnodup v hv ⟨hvv.1, hvv.2⟩
    rw [if_neg hsub, if_neg (by simp [hany])]
    refine ⟨_, rfl, rfl, ?_, ?_, ?_, ?_⟩
    · intro q hq hqp
      exact mem_updatePrice_of_mem _ _ _ q hq hqp
    · intro q hq hqp
      exact mem_updatePrice_of_mem_ne _ _ _ q hq hqp
    · intro u hu hup
      exact mem_updateUser_of_mem _ _ _ u hu hup
    · intro u hu hup
      exact mem_updateUser_of_mem_ne _ _ _ u hu hup

/-- Witness for C4: the submitter voting on their own price fails with
SelfVoteForbidden even with a negative vote; a different user's vote
succeeds. -/
theorem cast_vote_spec_witness :
    castVote voteDB 1 1 VoteType.negative = .error .selfVoteForbidden ∧
    ∃ db2, castVote voteDB 1 7 VoteType.negative = .ok db2 := by
  have hfind : findPrice voteDB 1 = some votePrice := by rfl
  constructor
  · exact (cast_vote_spec voteDB 1 1 VoteType.negative votePrice hfind).1 rfl
  · obtain ⟨db2, hok, _⟩ := (cast_vote_spec voteDB 1 7 VoteType.negative votePrice
      hfind).2.2 (by simp [votePrice]) (by simp [voteDB])
    exact ⟨db2, hok⟩

lemma getIntAttr_verified_count (p : ProductPrice) :
    p.getIntAttr "verified_count" = none := by
  unfold ProductPrice.getIntAttr
  simp

lemma legacyVerify_never_ok (db : DB) (priceId userId : Nat) :
    ∀ res, legacyVerify db priceId userId ≠ .ok res := by
  intro res hok
  unfold legacyVerify at hok
  cases hf : findPrice db priceId with
  | none =>
    simp [hf] at hok
  | some price =>
    simp only [hf] at hok
    by_cases hs : price.submitted_by = some userId
    · rw [if_pos hs] at hok
      cases hok
    · rw [if_neg hs, getIntAttr_verified_count] at hok
      cases hok

/-- C10: the legacy bare verify action always fails for a non-submitter: the
`verified_count` attribute it reads does not exist on the ProductPrice model,
so the read raises AttributeError; no invocation ever returns success, and
the state is left unchanged. -/
theorem legacy_verify_spec (db : DB) (priceId userId : Nat) :
    (∀ price, findPrice db priceId = some price → price.submitted_by ≠ some userId →
      legacyVerify db priceId userId = .error .attributeError) ∧
    (∀ res, legacyVerify db priceId userId ≠ .ok res) ∧
    step db (Op.verifyLegacy priceId userId) = db := by
  have hfail := legacyVerify_never_ok db priceId userId
  refine ⟨?_, hfail, ?_⟩
  · intro price hfind hself
    unfold legacyVerify
    simp only [hfind]
    rw [if_neg hself, getIntAttr_verified_count]
  · show (match legacyVerify db priceId userId with
      | Except.ok (db2, _) => db2
      | Except.error _ => db) = db
    cases hres : legacyVerify db priceId userId with
    | ok res => exact absurd hres (hfail res)
    | error e => rfl

/-- Witness for C10: user 7 attempting the legacy verify on user 1's price
hits the missing-attribute failure. -/
theorem legacy_verify_spec_witness :
    legacyVerify voteDB 1 7 = .error .attributeError :=
  (legacy_verify_spec voteDB 1 7).1 votePrice (by rfl) (by simp [votePrice])

lemma trustNonneg_updateUser (us : List User) (i : Nat) (f : User → User)
    (hf : ∀ u, 0 ≤ u.trust_score → 0 ≤ (f u).trust_score)
    (h : ∀ u ∈ us, 0 ≤ u.trust_score) :
    ∀ u ∈ updateUser us i f, 0 ≤ u.trust_score := by
  intro u hu
  unfold updateUser at hu
  obtain ⟨v, hv, rfl⟩ := List.mem_map.mp hu
  show 0 ≤ (if v.uid = i then f v else v).trust_score
  split
  · exact hf v (h v hv)
  · exact h v hv

lemma castVote_ok_users (db : DB) (priceId userId : Nat) (vt : VoteType) (db2 : DB)
    (h : castVote db priceId userId vt = .ok db2) :
    db2.users = updateUser db.users userId (fun u =>
      { u with trust_score := u.trust_score + 1 }) := by
  unfold castVote at h
  cases hf : findPrice db priceId with
  | none => simp [hf] at h
  | some price =>
    simp only [hf] at h
    by_cases h1 : price.submitted_by = some userId
    · rw [if_pos h1] at h
      cases h
    · rw [if_neg h1] at h
      by_cases h2 : (db.verifications.any fun v =>
          decide (v.price = priceId) && decide (v.user = userId)) = true
      · rw [if_pos h2] at h
        cases h
      · rw [if_neg h2] at h
        cases h
        rfl

lemma reportPrice_ok_users (db : DB) (priceId reporterId : Nat) (reason : ReportReason)
    (db2 : DB) (h : reportPrice db priceId reporterId reason = .ok db2) :
    db2.users = db.users := by
  unfold reportPrice at h
  cases hf : findPrice db priceId with
  | none => simp [hf] at h
  | some price =>
    simp only [hf] at h
    by_cases h1 : price.submitted_by = some reporterId
    · rw [if_pos h1] at h
      cases h
    · rw [if_neg h1] at h
      by_cases h2 : (db.reports.any fun r =>
          decide (r.price = priceId) && decide (r.reported_by = reporterId)) = true
      · rw [if_pos h2] at h
        cases h
      · rw [if_neg h2] at h
        split at h <;> (cases h; rfl)

lemma step_trustNonneg (db : DB) (op : Op) (h : trustNonneg db) :
    trustNonneg (step db op) := by
  cases op with
  | submit u d now =>
    show trustNonneg (match submitPrice db u d now with
      | Except.ok (db2, _) => db2
      | Except.error _ => db)
    cases hs : submitPrice db u d now with
    | error e => exact h
    | ok res =>
      obtain ⟨db2, pr⟩ := res
      intro x hx
      rw [submitPrice_ok_users db u d now db2 pr hs] at hx
      refine trustNonneg_updateUser _ u _ ?_ (trustNonneg_updateUser _ u _ ?_ h) x hx
      · intro v hv
        show (0 : Int) ≤ v.trust_score
        exact hv
      · intro v hv
        show (0 : Int) ≤ v.trust_score + 3
        omega
  | vote p u vt =>
    show trustNonneg (match castVote db p u vt with
      | Except.ok db2 => db2
      | Except.error _ => db)
    cases hs : castVote db p u vt with
    | error e => exact h
    | ok db2 =>
      intro x hx
      rw [castVote_ok_users db p u vt db2 hs] at hx
      refine trustNonneg_updateUser _ u _ ?_ h x hx
      intro v hv
      show (0 : Int) ≤ v.trust_score + 1
      omega
  | approve p =>
    intro x hx
    exact h x hx
  | reject p =>
    show trustNonneg (adminReject db p)
    unfold adminReject
    cases hf : findPrice db p with
    | none => exact h
    | some price =>
      show trustNonneg { db with
        users := match price.submitted_by with
          | none => db.users
          | some s => updateUser db.users s (fun u =>
              { u with trust_score := penalize20 u.trust_score })
        prices := updatePrice db.prices p (fun q => { q with status := .rejected }) }
      cases hsb : price.submitted_by with
      | none =>
        intro x hx
        exact h x hx
      | some s =>
        intro x hx
        refine trustNonneg_updateUser _ s _ ?_ h x hx
        intro v hv
        show (0 : Int) ≤ penalize20 v.trust_score
        unfold penalize20
        split <;> omega
  | report p r reason =>
    show trustNonneg (match reportPrice db p r reason with
      | Except.ok db2 => db2
      | Except.error _ => db)
    cases hs : reportPrice db p r reason with
    | error e => exact h
    | ok db2 =>
      intro x hx
      rw [reportPrice_ok_users db p r reason db2 hs] at hx
      exact h x hx
  | newProduct u =>
    intro x hx
    refine trustNonneg_updateUser _ u _ ?_ h x hx
    intro v hv
    show (0 : Int) ≤ v.trust_score + 5
    omega
  | verifyLegacy p u =>
    show trustNonneg (match legacyVerify db p u with
      | Except.ok (db2, _) => db2
      | Except.error _ => db)
    cases hs : legacyVerify db p u with
    | error e => exact h
    | ok res => exact absurd hs (legacyVerify_never_ok db p u res)

lemma castVote_ok_shape (db : DB) (priceId userId : Nat) (vt : VoteType) (db2 : DB)
    (h : castVote db priceId userId vt = .ok db2) :
    db2.verifications = db.verifications ++ [⟨priceId, userId, vt⟩] ∧
    db2.prices = updatePrice db.prices priceId (fun p =>
      if vt = .positive then { p with positive_votes := p.positive_votes + 1 }
      else { p with negative_votes := p.negative_votes + 1 }) := by
  unfold castVote at h
  cases hf : findPrice db priceId with
  | none => simp [hf] at h
  | some price =>
    simp only [hf] at h
    by_cases h1 : price.submitted_by = some userId
    · rw [if_pos h1] at h
      cases h
    · rw [if_neg h1] at h
      by_cases h2 : (db.verifications.any fun v =>
          decide (v.price = priceId) && decide (v.user = userId)) = true
      · rw [if_pos h2] at h
        cases h
      · rw [if_neg h2] at h
        cases h
        exact ⟨rfl, rfl⟩

lemma reportPrice_ok_shape (db : DB) (priceId reporterId : Nat) (reason : ReportReason)
    (db2 : DB) (h : reportPrice db priceId reporterId reason = .ok db2) :
    db2.verifications = db.verifications ∧
    (db2.prices = db.prices ∨
      db2.prices = updatePrice db.prices priceId (fun p => { p with status := .pending })) := by
  unfold reportPrice at h
  cases hf : findPrice db priceId with
  | none => simp [hf] at h
  | some price =>
    simp only [hf] at h
    by_cases h1 : price.submitted_by = some reporterId
    · rw [if_pos h1] at h
      cases h
    · rw [if_neg h1] at h
      by_cases h2 : (db.reports.any fun r =>
          decide (r.price = priceId) && decide (r.reported_by = reporterId)) = true
      · rw [if_pos h2] at h
        cases h
      · rw [if_neg h2] at h
        split at h
        · cases h
          exact ⟨rfl, Or.inr rfl⟩
        · cases h
          exact ⟨rfl, Or.inl rfl⟩

lemma updatePrice_votes_preserved (ps : List ProductPrice) (i : Nat)
    (f : ProductPrice → ProductPrice)
    (hf : ∀ p, (f p).pid = p.pid ∧ (f p).positive_votes = p.positive_votes ∧
      (f p).negative_votes = p.negative_votes) :
    ∀ q ∈ updatePrice ps i f, ∃ q0 ∈ ps, q.pid = q0.pid ∧
      q.positive_votes = q0.positive_votes ∧ q.negative_votes = q0.negative_votes := by
  intro q hq
  unfold updatePrice at hq
  obtain ⟨v, hv, rfl⟩ := List.mem_map.mp hq
  show ∃ q0 ∈ ps, (if v.pid = i then f v else v).pid = q0.pid ∧
    (if v.pid = i then f v else v).positive_votes = q0.positive_votes ∧
    (if v.pid = i then f v else v).negative_votes = q0.negative_votes
  refine ⟨v, hv, ?_, ?_, ?_⟩
  · split
    · exact (hf v).1
    · rfl
  · split
    · exact (hf v).2.1
    · rfl
  · split
    · exact (hf v).2.2
    · rfl

lemma voteBalance_preserved (db db2 : DB)
    (hv : db2.verifications = db.verifications)
    (hp : ∀ q ∈ db2.prices, ∃ q0 ∈ db.prices, q.pid = q0.pid ∧
      q.positive_votes = q0.positive_votes ∧ q.negative_votes = q0.negative_votes)
    (h : voteBalance db) : voteBalance db2 := by
  intro q hq
  obtain ⟨q0, hq0, hpid, hpos, hneg⟩ := hp q hq
  rw [hpid, hpos, hneg]
  have hvc : verifCount db2 q0.pid = verifCount db q0.pid := by
    unfold verifCount
    rw [hv]
  rw [hvc]
  exact h q0 hq0

lemma verifCount_snoc (db : DB) (vs : List Verification) (v : Verification) (i : Nat)
    (hvs : vs = db.verifications ++ [v]) :
    (vs.filter (fun x => x.price = i)).length =
      verifCount db i + (if v.price = i then 1 else 0) := by
  unfold verifCount
  rw [hvs, List.filter_append, List.length_append]
  congr 1
  by_cases hc : v.price = i <;> simp [hc]

/-- C5: from any store whose users all have nonnegative trust, every sequence
of core operations preserves nonnegativity of every trust score; the admin
reject penalty is exactly a -20 step clamped at the floor 0. -/
theorem trust_floor_spec :
    (∀ (db : DB) (ops : List Op), trustNonneg db → trustNonneg (run db ops)) ∧
    (∀ t : Int, penalize20 t = max (t - 20) 0) := by
  constructor
  · intro db ops h
    induction ops generalizing db with
    | nil => exact h
    | cons op rest ih => exact ih (step db op) (step_trustNonneg db op h)
  · intro t
    unfold penalize20
    split <;> omega

/-- Witness for C5: two successive admin rejections of a 10-trust submitter
leave every trust score nonnegative. -/
theorem trust_floor_spec_witness :
    trustNonneg (run
      ⟨[⟨1, 10, false, 0, 0⟩],
       [⟨1, 1, 1, some 1, 5, 5, Currency.eur, Status.approved, false, 0, 0, 0⟩], [], []⟩
      [Op.reject 1, Op.reject 1]) :=
  trust_floor_spec.1
    ⟨[⟨1, 10, false, 0, 0⟩],
     [⟨1, 1, 1, some 1, 5, 5, Currency.eur, Status.approved, false, 0, 0, 0⟩], [], []⟩
    [Op.reject 1, Op.reject 1] (by decide)

/-- C1 (amended): the equality `positive_votes + negative_votes =`
number of PriceVerification rows is preserved by cast_vote, admin reject and
report; admin approve preserves it when the target price's negative_votes is
already 0 (in general it resets negative_votes to 0 without deleting
verification rows, breaking the equality). -/
theorem vote_balance_spec :
    (∀ (db : DB) (priceId userId : Nat) (vt : VoteType) (db2 : DB),
      castVote db priceId userId vt = .ok db2 → voteBalance db → voteBalance db2) ∧
    (∀ (db : DB) (priceId : Nat), voteBalance db → voteBalance (adminReject db priceId)) ∧
    (∀ (db : DB) (priceId reporterId : Nat) (reason : ReportReason) (db2 : DB),
      reportPrice db priceId reporterId reason = .ok db2 →
      voteBalance db → voteBalance db2) ∧
    (∀ (db : DB) (priceId : Nat),
      (∀ p ∈ db.prices, p.pid = priceId → p.negative_votes = 0) →
      voteBalance db → voteBalance (adminApprove db priceId)) := by
  refine ⟨?_, ?_, ?_, ?_⟩
  · intro db priceId userId vt db2 hok hbal
    obtain ⟨hverifs, hprices⟩ := castVote_ok_shape db priceId userId vt db2 hok
    have hvc : ∀ i, verifCount db2 i = verifCount db i + (if priceId = i then 1 else 0) := by
      intro i
      unfold verifCount
      exact verifCount_snoc db db2.verifications ⟨priceId, userId, vt⟩ i hverifs
    intro q hq
    rw [hprices] at hq
    unfold updatePrice at hq
    obtain ⟨v, hv, rfl⟩ := List.mem_map.mp hq
    have hb := hbal v hv
    by_cases hc : v.pid = priceId
    · rw [if_pos hc]
      cases vt with
      | positive =>
        show v.positive_votes + 1 + v.negative_votes = (verifCount db2 v.pid : Int)
        rw [hvc v.pid, if_pos hc.symm]
        push_cast
        omega
      | negative =>
        show v.positive_votes + (v.negative_votes + 1) = (verifCount db2 v.pid : Int)
        rw [hvc v.pid, if_pos hc.symm]
        push_cast
        omega
    · rw [if_neg hc]
      show v.positive_votes + v.negative_votes = (verifCount db2 v.pid : Int)
      rw [hvc v.pid, if_neg (fun he => hc he.symm)]
      push_cast
      omega
  · intro db priceId hbal
    unfold adminReject
    cases hf : findPrice db priceId with
    | none => exact hbal
    | some price =>
      refine voteBalance_preserved db _ rfl ?_ hbal
      exact updatePrice_votes_preserved db.prices priceId _
        (fun p => ⟨rfl, rfl, rfl⟩)
  · intro db priceId reporterId reason db2 hok hbal
    obtain ⟨hverifs, hprices⟩ := reportPrice_ok_shape db priceId reporterId reason db2 hok
    refine voteBalance_preserved db db2 hverifs ?_ hbal
    rcases hprices with hsame | hupd
    · rw [hsame]
      exact fun q hq => ⟨q, hq, rfl, rfl, rfl⟩
    · rw [hupd]
      exact updatePrice_votes_preserved db.prices priceId _
        (fun p => ⟨rfl, rfl, rfl⟩)
  · intro db priceId hzero hbal
    intro q hq
    unfold adminApprove updatePrice at hq
    obtain ⟨v, hv, rfl⟩ := List.mem_map.mp hq
    have hb := hbal v hv
    have hvc : verifCount (adminApprove db priceId) v.pid = verifCount db v.pid := rfl
    by_cases hc : v.pid = priceId
    · rw [if_pos hc]
      show v.positive_votes + 0 = (verifCount (adminApprove db priceId) v.pid : Int)
      rw [hvc]
      have hz := hzero v hv hc
      omega
    · rw [if_neg hc]
      show v.positive_votes + v.negative_votes = (verifCount (adminApprove db priceId) v.pid : Int)
      rw [hvc]
      exact hb

/-- Witness for C1: rejecting the singly-voted price preserves the balance,
and so does a fresh vote. -/
theorem vote_balance_spec_witness :
    voteBalance (adminReject balDB 1) :=
  vote_balance_spec.2.1 balDB 1 (by decide)

/-- Counterexample for C1 as stated: in a reachable state where a price holds
one negative vote backed by one PriceVerification row, the balance holds, but
admin approve resets negative_votes to 0 while the verification row remains,
breaking the equality. -/
theorem vote_balance_counterexample :
    voteBalance balDB ∧ ¬ voteBalance (adminApprove balDB 1) := by
  constructor
  · decide
  · decide

lemma reportCount_snoc (db : DB) (r : Report) (i : Nat) :
    reportCount { db with reports := db.reports ++ [r] } i =
      reportCount db i + (if r.price = i then 1 else 0) := by
  unfold reportCount
  show ((db.reports ++ [r]).filter _).length = _
  rw [List.filter_append, List.length_append]
  congr 1
  by_cases hc : r.price = i <;> simp [hc]

lemma findPrice_pid (db : DB) (i : Nat) (price : ProductPrice)
    (h : findPrice db i = some price) : price.pid = i := by
  have := List.find?_some h
  simpa using this

lemma findPrice_map (db2 db : DB) (i : Nat) (f : ProductPrice → ProductPrice)
    (hf : ∀ p, (f p).pid = p.pid)
    (hp : db2.prices = updatePrice db.prices i f) (j : Nat) :
    findPrice db2 j = (findPrice db j).map (fun p => if p.pid = i then f p else p) := by
  unfold findPrice
  rw [hp]
  unfold updatePrice
  rw [List.find?_map]
  have hfun : ((fun p => decide (p.pid = j)) ∘ fun p => if p.pid = i then f p else p) =
      (fun p => decide (p.pid = j)) := by
    funext p
    show decide ((if p.pid = i then f p else p).pid = j) = decide (p.pid = j)
    by_cases hc : p.pid = i
    · rw [if_pos hc, hf]
    · rw [if_neg hc]
  rw [hfun]

lemma reportPrice_success (db : DB) (priceId reporterId : Nat) (reason : ReportReason)
    (price : ProductPrice) (hfind : findPrice db priceId = some price)
    (hself : price.submitted_by ≠ some reporterId)
    (hdup : ∀ r ∈ db.reports, ¬(r.price = priceId ∧ r.reported_by = reporterId)) :
    ∃ db2, reportPrice db priceId reporterId reason = .ok db2 ∧
      db2.users = db.users ∧ db2.verifications = db.verifications ∧
      db2.reports = db.reports ++ [⟨priceId, reporterId, reason⟩] ∧
      reportCount db2 priceId = reportCount db priceId + 1 ∧
      findPrice db2 priceId =
        some (if 3 ≤ reportCount db priceId + 1 ∧ price.status = Status.approved
          then { price with status := Status.pending } else price) := by
  have hpid : price.pid = priceId := findPrice_pid db priceId price hfind
  have hany : (db.reports.any fun r =>
      decide (r.price = priceId) && decide (r.reported_by = reporterId)) = false := by
    rw [Bool.eq_false_iff]
    intro hc
    rw [List.any_eq_true] at hc
    obtain ⟨r, hr, hrr⟩ := hc
    simp only [Bool.and_eq_true, decide_eq_true_eq] at hrr
    exact hdup r hr hrr
  have hrc1 : reportCount { db with
      reports := db.reports ++ [⟨priceId, reporterId, reason⟩] } priceId =
      reportCount db priceId + 1 := by
    rw [reportCount_snoc]
    simp
  unfold reportPrice
  simp only [hfind]
  rw [if_neg hself, if_neg (by simp [hany])]
  simp only [hrc1]
  by_cases hcond : 3 ≤ reportCount db priceId + 1 ∧ price.status = Status.approved
  · rw [if_pos hcond]
    refine ⟨_, rfl, rfl, rfl, rfl, hrc1, ?_⟩
    rw [if_pos hcond]
    have hfp := findPrice_map
      { db with
        reports := db.reports ++ [⟨priceId, reporterId, reason⟩]
        prices := updatePrice db.prices priceId (fun p => { p with status := Status.pending }) }
      db priceId (fun p => { p with status := Status.pending }) (fun p => rfl) rfl priceId
    have : findPrice { db with
        reports := db.reports ++ [⟨priceId, reporterId, reason⟩]
        prices := updatePrice db.prices priceId (fun p => { p with status := Status.pending }) }
        priceId = (findPrice db priceId).map (fun p =>
          if p.pid = priceId then { p with status := Status.pending } else p) := hfp
    rw [hfind] at this
    simp only [Option.map_some'] at this
    rw [if_pos hpid] at this
    exact this
  · rw [if_neg hcond]
    refine ⟨_, rfl, rfl, rfl, rfl, hrc1, ?_⟩
    rw [if_neg hcond]
    exact hfind

lemma runReports_trajectory (reporters : List Nat) :
    ∀ (db : DB) (priceId : Nat) (reason : ReportReason) (price : ProductPrice),
      findPrice db priceId = some price →
      price.status = (if reportCount db priceId < 3 then Status.approved else Status.pending) →
      reporters.Nodup →
      (∀ r ∈ reporters, price.submitted_by ≠ some r) →
      (∀ r ∈ reporters, ∀ x ∈ db.reports, ¬(x.price = priceId ∧ x.reported_by = r)) →
      ∃ price2, findPrice (runReports db priceId reporters reason) priceId = some price2 ∧
        price2.submitted_by = price.submitted_by ∧
        reportCount (runReports db priceId reporters reason) priceId =
          reportCount db priceId + reporters.length ∧
        price2.status = (if reportCount db priceId + reporters.length < 3
          then Status.approved else Status.pending) := by
  induction reporters with
  | nil =>
    intro db priceId reason price hfind hst _ _ _
    exact ⟨price, hfind, rfl, rfl, hst⟩
  | cons r rest ih =>
    intro db priceId reason price hfind hst hnodup hself hdup
    obtain ⟨db2, hok, hu, hv, hr, hrc, hfind2⟩ :=
      reportPrice_success db priceId r reason price hfind
        (hself r (List.mem_cons_self r rest))
        (fun x hx => hdup r (List.mem_cons_self r rest) x hx)
    have hrun : runReports db priceId (r :: rest) reason =
        runReports db2 priceId rest reason := by
      unfold runReports
      rw [List.foldl_cons, hok]
    set c := reportCount db priceId with hc
    set p1 := (if 3 ≤ c + 1 ∧ price.status = Status.approved
      then { price with status := Status.pending } else price) with hp1
    have hsb : p1.submitted_by = price.submitted_by := by
      rw [hp1]
      split <;> rfl
    have hst2 : p1.status = (if reportCount db2 priceId < 3
        then Status.approved else Status.pending) := by
      rw [hrc, hp1]
      by_cases hcond : 3 ≤ c + 1 ∧ price.status = Status.approved
      · rw [if_pos hcond]
        have : ¬ (c + 1 < 3) := by omega
        rw [if_neg this]
      · rw [if_neg hcond]
        by_cases hlt : c + 1 < 3
        · rw [if_pos hlt, hst, if_pos (by omega)]
        · rw [if_neg hlt]
          rw [hst]
          by_cases hc3 : c < 3
          · exfalso
            apply hcond
            refine ⟨by omega, ?_⟩
            rw [hst, if_pos hc3]
          · rw [if_neg hc3]
    have hdup2 : ∀ r2 ∈ rest, ∀ x ∈ db2.reports, ¬(x.price = priceId ∧ x.reported_by = r2) := by
      intro r2 hr2 x hx
      rw [hr] at hx
      rcases List.mem_append.mp hx with hx | hx
      · exact hdup r2 (List.mem_cons_of_mem r hr2) x hx
      · rw [List.mem_singleton.mp hx]
        intro hcon
        have : r = r2 := hcon.2
        rw [this] at hnodup
        exact (List.nodup_cons.mp hnodup).1 (this ▸ hr2)
    obtain ⟨price2, hfind3, hsb2, hrc2, hst3⟩ := ih db2 priceId reason p1 hfind2 hst2
      (List.nodup_cons.mp hnodup).2
      (fun r2 hr2 => hsb ▸ hself r2 (List.mem_cons_of_mem r hr2))
      hdup2
    refine ⟨price2, by rw [hrun]; exact hfind3, by rw [hsb2, hsb], ?_, ?_⟩
    · rw [hrun, hrc2, hrc]
      simp [List.length_cons]
      omega
    · rw [hst3, hrc]
      have : c + 1 + rest.length = c + (r :: rest).length := by
        simp [List.length_cons]
        omega
      rw [this]

/-- C3: a successful report either leaves every price status unchanged or,
exactly when the reported price was approved and its report count has reached
3, demotes that price (and only it) to pending — a report never sets a status
to approved or rejected; starting from an approved price with no reports, a
run of distinct non-submitter reporters leaves the price approved while fewer
than 3 reports exist and pending from the 3rd report on, with no further
change. -/
theorem report_threshold_spec :
    (∀ (db : DB) (priceId reporterId : Nat) (reason : ReportReason) (db2 : DB),
      reportPrice db priceId reporterId reason = .ok db2 →
      ∀ i, priceStatus db2 i = priceStatus db i ∨
        (i = priceId ∧ priceStatus db i = some Status.approved ∧
         priceStatus db2 i = some Status.pending ∧ 3 ≤ reportCount db2 i)) ∧
    (∀ (db : DB) (priceId : Nat) (reason : ReportReason) (reporters : List Nat)
       (price : ProductPrice),
      findPrice db priceId = some price →
      price.status = Status.approved →
      reportCount db priceId = 0 →
      reporters.Nodup →
      (∀ r ∈ reporters, price.submitted_by ≠ some r) →
      priceStatus (runReports db priceId reporters reason) priceId =
        some (if reporters.length < 3 then Status.approved else Status.pending)) := by
  constructor
  · intro db priceId reporterId reason db2 hok i
    unfold reportPrice at hok
    cases hf : findPrice db priceId with
    | none => simp [hf] at hok
    | some price =>
      have hpid : price.pid = priceId := findPrice_pid db priceId price hf
      simp only [hf] at hok
      by_cases h1 : price.submitted_by = some reporterId
      · rw [if_pos h1] at hok
        cases hok
      · rw [if_neg h1] at hok
        by_cases h2 : (db.reports.any fun x =>
            decide (x.price = priceId) && decide (x.reported_by = reporterId)) = true
        · rw [if_pos h2] at hok
          cases hok
        · rw [if_neg h2] at hok
          split at hok
          next hcond =>
            cases hok
            have hfp := findPrice_map
              { db with
                reports := db.reports ++ [⟨priceId, reporterId, reason⟩]
                prices := updatePrice db.prices priceId
                  (fun p => { p with status := Status.pending }) }
              db priceId (fun p => { p with status := Status.pending })
              (fun p => rfl) rfl i
            by_cases hi : i = priceId
            · right
              subst hi
              refine ⟨rfl, ?_, ?_, ?_⟩
              · unfold priceStatus
                rw [hf]
                simp only [Option.map_some']
                rw [hcond.2]
              · unfold priceStatus
                rw [hfp, hf]
                simp only [Option.map_some', Option.map_map, Function.comp]
                rw [if_pos hpid]
              · have : reportCount { db with
                    reports := db.reports ++ [⟨i, reporterId, reason⟩]
                    prices := updatePrice db.prices i
                      (fun p => { p with status := Status.pending }) } i =
                    reportCount { db with
                      reports := db.reports ++ [⟨i, reporterId, reason⟩] } i := rfl
                rw [this]
                exact hcond.1
            · left
              unfold priceStatus
              rw [hfp]
              cases hq : findPrice db i with
              | none => rfl
              | some q =>
                have hqpid : q.pid = i := findPrice_pid db i q hq
                simp only [Option.map_some', Option.map_map, Function.comp]
                rw [if_neg (by rw [hqpid]; exact hi)]
          next hcond =>
            cases hok
            left
            rfl
  · intro db priceId reason reporters price hfind hap hc0 hnodup hself
    have hdup : ∀ r ∈ reporters, ∀ x ∈ db.reports, ¬(x.price = priceId ∧ x.reported_by = r) := by
      intro r hr x hx hcon
      have hfil : (db.reports.filter (fun y => y.price = priceId)).length = 0 := hc0
      rw [List.length_eq_zero] at hfil
      have : x ∈ db.reports.filter (fun y => y.price = priceId) :=
        List.mem_filter.mpr ⟨hx, by simp [hcon.1]⟩
      rw [hfil] at this
      cases this
    have hst : price.status = (if reportCount db priceId < 3
        then Status.approved else Status.pending) := by
      rw [hc0, if_pos (by omega), hap]
    obtain ⟨price2, hfind2, hsb, hrc, hst2⟩ :=
      runReports_trajectory reporters db priceId reason price hfind hst hnodup hself hdup
    have hlen : reportCount db priceId + reporters.length = reporters.length := by
      rw [hc0]
      omega
    unfold priceStatus
    rw [hfind2]
    simp only [Option.map_some']
    rw [hst2, hlen]

/-- Witness for C3: four successive distinct reporters demote the approved
price to pending (at the 3rd report) and leave it pending. -/
theorem report_threshold_spec_witness :
    priceStatus (runReports reportDB 1 [2, 3, 4, 5] ReportReason.other) 1 =
      some Status.pending := by
  have h := report_threshold_spec.2 reportDB 1 ReportReason.other [2, 3, 4, 5]
    ⟨1, 1, 2, some 1, 10, 10, Currency.eur, Status.approved, false, 0, 0, 0⟩
    (by rfl) rfl rfl (by decide) (by decide)
  simpa using h

lemma tallyStep_total (db : DB) (s : Nat) (t : StoreTally) (it : Nat × Nat) :
    (tallyStep db s t it).total = t.total + priceContribution db s it := by
  unfold tallyStep priceContribution
  cases latestApproved db it.1 s <;> simp

lemma tallyStep_with (db : DB) (s : Nat) (t : StoreTally) (it : Nat × Nat) :
    (tallyStep db s t it).items_with_prices =
      t.items_with_prices + (if (latestApproved db it.1 s).isSome then 1 else 0) := by
  unfold tallyStep
  cases latestApproved db it.1 s <;> simp

lemma tallyStep_without (db : DB) (s : Nat) (t : StoreTally) (it : Nat × Nat) :
    (tallyStep db s t it).items_without_prices =
      t.items_without_prices ++ (if (latestApproved db it.1 s).isNone then [it.1] else []) := by
  unfold tallyStep
  cases latestApproved db it.1 s <;> simp

lemma tally_total (db : DB) (s : Nat) (q : List (Nat × Nat)) :
    ∀ t : StoreTally, (q.foldl (tallyStep db s) t).total =
      t.total + (q.map (priceContribution db s)).sum := by
  induction q with
  | nil =>
    intro t
    simp
  | cons it rest ih =>
    intro t
    rw [List.foldl_cons, ih, tallyStep_total]
    simp [add_assoc]

lemma tally_with (db : DB) (s : Nat) (q : List (Nat × Nat)) :
    ∀ t : StoreTally, (q.foldl (tallyStep db s) t).items_with_prices =
      t.items_with_prices +
        (q.filter (fun it => (latestApproved db it.1 s).isSome)).length := by
  induction q with
  | nil =>
    intro t
    simp
  | cons it rest ih =>
    intro t
    rw [List.foldl_cons, ih, tallyStep_with, List.filter_cons]
    by_cases hl : (latestApproved db it.1 s).isSome
    · rw [if_pos hl, if_pos hl]
      simp
      omega
    · rw [if_neg hl, if_neg hl]
      simp

lemma tally_without (db : DB) (s : Nat) (q : List (Nat × Nat)) :
    ∀ t : StoreTally, (q.foldl (tallyStep db s) t).items_without_prices =
      t.items_without_prices ++
        ((q.filter (fun it => (latestApproved db it.1 s).isNone)).map (fun it => it.1)) := by
  induction q with
  | nil =>
    intro t
    simp
  | cons it rest ih =>
    intro t
    rw [List.foldl_cons, ih, tallyStep_without, List.filter_cons]
    by_cases hl : (latestApproved db it.1 s).isNone
    · rw [if_pos hl, if_pos hl]
      simp
    · rw [if_neg hl, if_neg hl]
      simp

/-- C8: compareStores rejects fewer than 2 store ids with InsufficientStores
and otherwise returns, sorted ascending by total, one entry per requested
store whose total is the rounded sum of quantity times the latest approved
price over priced items, whose unpriced items are listed separately, and
whose coverage is the rounded priced-item percentage. -/
theorem compare_stores_spec :
    (∀ (db : DB) (items : List SLItem) (storeIds : List Nat),
      compareStores db items storeIds = .error .insufficientStores ↔
        storeIds.length < 2) ∧
    (∀ (db : DB) (items : List SLItem) (storeIds : List Nat) (res : List StoreResult),
      compareStores db items storeIds = .ok res →
      res.Perm (storeIds.map (fun s => storeResult db (qualifyingItems items) s)) ∧
      res.Sorted byTotal) ∧
    (∀ (db : DB) (items : List (Nat × Nat)) (s : Nat),
      storeResult db items s =
        { store_id := s
          total_price_eur := round2 ((items.map (priceContribution db s)).sum)
          items_with_prices :=
            (items.filter (fun it => (latestApproved db it.1 s).isSome)).length
          items_without_prices :=
            (items.filter (fun it => (latestApproved db it.1 s).isNone)).map (fun it => it.1)
          coverage_percent := round1
            (if 0 < items.length then
              ((items.filter (fun it => (latestApproved db it.1 s).isSome)).length : Rat)
                / (items.length : Rat) * 100
            else 0) }) := by
  have hfields : ∀ (db : DB) (items : List (Nat × Nat)) (s : Nat),
      (tallyStore db items s).total = (items.map (priceContribution db s)).sum ∧
      (tallyStore db items s).items_with_prices =
        (items.filter (fun it => (latestApproved db it.1 s).isSome)).length ∧
      (tallyStore db items s).items_without_prices =
        (items.filter (fun it => (latestApproved db it.1 s).isNone)).map (fun it => it.1) := by
    intro db items s
    unfold tallyStore
    rw [tally_total, tally_with, tally_without]
    exact ⟨by simp, by simp, by simp⟩
  refine ⟨?_, ?_, ?_⟩
  · intro db items storeIds
    unfold compareStores
    by_cases hl : storeIds.length < 2
    · rw [if_pos hl]
      simp [hl]
    · rw [if_neg hl]
      simp [hl]
  · intro db items storeIds res hok
    unfold compareStores at hok
    by_cases hl : storeIds.length < 2
    · rw [if_pos hl] at hok
      cases hok
    · rw [if_neg hl] at hok
      cases hok
      exact ⟨List.perm_insertionSort byTotal _, List.sorted_insertionSort byTotal _⟩
  · intro db items s
    obtain ⟨h1, h2, h3⟩ := hfields db items s
    show ({ store_id := s
            total_price_eur := round2 (tallyStore db items s).total
            items_with_prices := (tallyStore db items s).items_with_prices
            items_without_prices := (tallyStore db items s).items_without_prices
            coverage_percent := round1
              (if 0 < items.length then
                ((tallyStore db items s).items_with_prices : Rat) / (items.length : Rat) * 100
              else 0) } : StoreResult) = _
    rw [h1, h2, h3]

/-- Witness for C8: a single store id is rejected; with stores 1 and 2 and
the §8 example data the result is sorted and store 1's entry carries total 6,
one priced item, product 2 unpriced, and 50 percent coverage. -/
theorem compare_stores_spec_witness :
    compareStores shopDB shopItems [1] = .error .insufficientStores ∧
    (∃ res, compareStores shopDB shopItems [1, 2] = .ok res ∧ res.Sorted byTotal) ∧
    storeResult shopDB (qualifyingItems shopItems) 1 =
      { store_id := 1, total_price_eur := 6, items_with_prices := 1,
        items_without_prices := [2], coverage_percent := 50 } := by
  refine ⟨(compare_stores_spec.1 shopDB shopItems [1]).mpr (by decide), ?_, ?_⟩
  · cases hok : compareStores shopDB shopItems [1, 2] with
    | error e =>
      cases e
      exact absurd ((compare_stores_spec.1 shopDB shopItems [1, 2]).mp hok) (by decide)
    | ok res =>
      exact ⟨res, rfl, (compare_stores_spec.2.1 shopDB shopItems [1, 2] res hok).2⟩
  · have hq : qualifyingItems shopItems = [(1, 2), (2, 1)] := rfl
    have hl1 : latestApproved shopDB 1 1 = some shopPrice := rfl
    have hl2 : latestApproved shopDB 2 1 = none := rfl
    rw [compare_stores_spec.2.2 shopDB (qualifyingItems shopItems) 1, hq]
    norm_num [priceContribution, hl1, hl2, shopPrice, round2, round1, roundHalfEven]

lemma latest_fold_mem (c : List ProductPrice) :
    ∀ (acc : Option ProductPrice) (x : ProductPrice),
      c.foldl (fun acc p =>
        match acc with
        | none => some p
        | some q => if q.created_at < p.created_at then some p else some q) acc = some x →
      x ∈ c ∨ acc = some x := by
  induction c with
  | nil =>
    intro acc x h
    exact Or.inr h
  | cons a rest ih =>
    intro acc x h
    rw [List.foldl_cons] at h
    rcases ih _ x h with hx | hx
    · exact Or.inl (List.mem_cons_of_mem a hx)
    · cases acc with
      | none =>
        have hx2 : (some a : Option ProductPrice) = some x := hx
        exact Or.inl (List.mem_cons.mpr (Or.inl (Option.some.inj hx2).symm))
      | some q =>
        have hx2 : (if q.created_at < a.created_at then some a else some q) = some x := hx
        by_cases hlt : q.created_at < a.created_at
        · rw [if_pos hlt] at hx2
          exact Or.inl (List.mem_cons.mpr (Or.inl (Option.some.inj hx2).symm))
        · rw [if_neg hlt] at hx2
          exact Or.inr hx2

lemma latest_fold_keep (p : ProductPrice) (c : List ProductPrice)
    (hmax : ∀ q ∈ c, q = p ∨ q.created_at < p.created_at) :
    c.foldl (fun acc x =>
      match acc with
      | none => some x
      | some q => if q.created_at < x.created_at then some x else some q)
      (some p) = some p := by
  induction c with
  | nil => rfl
  | cons a rest ih =>
    rw [List.foldl_cons]
    have hstep : (if p.created_at < a.created_at then some a else some p) = some p := by
      rcases hmax a (List.mem_cons_self a rest) with ha | ha
      · rw [ha, if_neg (lt_irrefl _)]
      · rw [if_neg (not_lt.mpr (le_of_lt ha))]
    show List.foldl _ (if p.created_at < a.created_at then some a else some p) rest = some p
    rw [hstep]
    exact ih (fun q hq => hmax q (List.mem_cons_of_mem a hq))

lemma latest_fold_main (p : ProductPrice) (c : List ProductPrice) :
    ∀ acc : Option ProductPrice,
      (∀ q ∈ c, q = p ∨ q.created_at < p.created_at) →
      p ∈ c →
      (acc = none ∨ ∃ x, acc = some x ∧ x.created_at < p.created_at) →
      c.foldl (fun acc x =>
        match acc with
        | none => some x
        | some q => if q.created_at < x.created_at then some x else some q)
        acc = some p := by
  induction c with
  | nil =>
    intro acc _ hp _
    cases hp
  | cons a rest ih =>
    intro acc hmax hp hacc
    rw [List.foldl_cons]
    by_cases hap : a = p
    · subst hap
      rcases hacc with h | ⟨x, hx, hxl⟩
      · subst h
        show List.foldl _ (some a) rest = some a
        exact latest_fold_keep a rest (fun q hq => hmax q (List.mem_cons_of_mem a hq))
      · subst hx
        show List.foldl _ (if x.created_at < a.created_at then some a else some x) rest = some a
        rw [if_pos hxl]
        exact latest_fold_keep a rest (fun q hq => hmax q (List.mem_cons_of_mem a hq))
    · have hpin : p ∈ rest := by
        rcases List.mem_cons.mp hp with h | h
        · exact absurd h.symm hap
        · exact h
      have halt : a.created_at < p.created_at := by
        rcases hmax a (List.mem_cons_self a rest) with h | h
        · exact absurd h hap
        · exact h
      apply ih _ (fun q hq => hmax q (List.mem_cons_of_mem a hq)) hpin
      rcases hacc with h | ⟨x, hx, hxl⟩
      · subst h
        right
        exact ⟨a, rfl, halt⟩
      · subst hx
        right
        by_cases hlt : x.created_at < a.created_at
        · refine ⟨a, ?_, halt⟩
          show (if x.created_at < a.created_at then some a else some x) = some a
          rw [if_pos hlt]
        · refine ⟨x, ?_, hxl⟩
          show (if x.created_at < a.created_at then some a else some x) = some x
          rw [if_neg hlt]

lemma best_fold_mem (c : List ProductPrice) :
    ∀ (acc : Option ProductPrice) (x : ProductPrice),
      c.foldl (fun acc p =>
        match acc with
        | none => some p
        | some q => if p.price_eur < q.price_eur then some p else some q) acc = some x →
      x ∈ c ∨ acc = some x := by
  induction c with
  | nil =>
    intro acc x h
    exact Or.inr h
  | cons a rest ih =>
    intro acc x h
    rw [List.foldl_cons] at h
    rcases ih _ x h with hx | hx
    · exact Or.inl (List.mem_cons_of_mem a hx)
    · cases acc with
      | none =>
        have hx2 : (some a : Option ProductPrice) = some x := hx
        exact Or.inl (List.mem_cons.mpr (Or.inl (Option.some.inj hx2).symm))
      | some q =>
        have hx2 : (if a.price_eur < q.price_eur then some a else some q) = some x := hx
        by_cases hlt : a.price_eur < q.price_eur
        · rw [if_pos hlt] at hx2
          exact Or.inl (List.mem_cons.mpr (Or.inl (Option.some.inj hx2).symm))
        · rw [if_neg hlt] at hx2
          exact Or.inr hx2

/-- C9: the price the store comparison selects for an item is constrained
only by product, store, and approved status — never by the outlier flag: any
approved price strictly newer than all other approved candidates is selected
whatever its `is_outlier` value, and every selected price is just an approved
match; by contrast `get_best_price` never returns a flagged price. -/
theorem comparison_ignores_outlier_flag :
    (∀ (db : DB) (productId storeId : Nat) (p : ProductPrice),
      latestApproved db productId storeId = some p →
      p.status = Status.approved ∧ p.product = productId ∧ p.store = storeId) ∧
    (∀ (db : DB) (productId storeId : Nat) (p : ProductPrice),
      p ∈ db.prices → p.product = productId → p.store = storeId →
      p.status = Status.approved →
      (∀ q ∈ db.prices, q.product = productId → q.store = storeId →
        q.status = Status.approved → q = p ∨ q.created_at < p.created_at) →
      latestApproved db productId storeId = some p) ∧
    (∀ (db : DB) (productId : Nat) (now : Int) (p : ProductPrice),
      bestPrice db productId now = some p → p.is_outlier = false) := by
  refine ⟨?_, ?_, ?_⟩
  · intro db productId storeId p hp
    unfold latestApproved at hp
    rcases latest_fold_mem _ none p hp with hmem | hmem
    · have hf := List.mem_filter.mp hmem
      have hc := of_decide_eq_true hf.2
      exact ⟨hc.2.2, hc.1, hc.2.1⟩
    · cases hmem
  · intro db productId storeId p hp hprod hstore happ hmax
    unfold latestApproved
    apply latest_fold_main p _ none
    · intro q hq
      have hf := List.mem_filter.mp hq
      have hc := of_decide_eq_true hf.2
      exact hmax q hf.1 hc.1 hc.2.1 hc.2.2
    · exact List.mem_filter.mpr ⟨hp, by simp [hprod, hstore, happ]⟩
    · exact Or.inl rfl
  · intro db productId now p hp
    unfold bestPrice at hp
    rcases best_fold_mem _ none p hp with hmem | hmem
    · have hf := List.mem_filter.mp hmem
      have hc := of_decide_eq_true hf.2
      exact hc.2.2.1
    · cases hmem

/-- Witness for C9: the most recent approved price at the store is a flagged
outlier; it is selected, its 100 EUR enters the basket total, while
`get_best_price` for the same product returns the older non-outlier price. -/
theorem comparison_ignores_outlier_flag_witness :
    latestApproved outlierShopDB 1 1 = some outlierLatest ∧
    outlierLatest.is_outlier = true ∧
    (storeResult outlierShopDB [(1, 1)] 1).total_price_eur = 100 ∧
    bestPrice outlierShopDB 1 5 = some normalOlder ∧
    normalOlder.is_outlier = false := by
  have hbest : bestPrice outlierShopDB 1 5 = some normalOlder := by
    norm_num [bestPrice, outlierShopDB, normalOlder, outlierLatest]
  refine ⟨?_, rfl, ?_, hbest, ?_⟩
  · apply comparison_ignores_outlier_flag.2.1 outlierShopDB 1 1 outlierLatest
    · show outlierLatest ∈ [normalOlder, outlierLatest]
      simp
    · rfl
    · rfl
    · rfl
    · intro q hq _ _ _
      rcases List.mem_cons.mp hq with h | h
      · right
        rw [h]
        show (0 : Int) < 5
        norm_num
      · left
        exact List.mem_singleton.mp h
  · norm_num [storeResult, tallyStore, tallyStep, latestApproved, outlierShopDB,
      normalOlder, outlierLatest, round2, roundHalfEven]
  · exact comparison_ignores_outlier_flag.2.2 outlierShopDB 1 5 normalOlder hbest

end PriceMon
